import Mathlib

/-!
Verification of the `broadcast` network daemon (github.com/nyxtom/broadcast).

This file shallowly embeds the parts of the Go source that the checked claims
are about:

* the tagged-scalar wire codec of `server` (`BufferClient.WriteInterface`,
  `WriteArray`, `ReadInterface`, `ReadLine`, `ParseByte/...`);
* the per-connection dispatch loops of the three protocols
  (`DefaultBroadcastServerProtocol.RunClient`, `RedisProtocol.RunClient`,
  `LineProtocol.RunClient`) together with `BroadcastContext.Register`;
* `NetworkClient.Close` (a value-receiver method, modelled as such);
* the pub/sub backend (`PubSubBackend.subscribe/unsubscribe/publish`);
* the stats `MemoryBackend` (`Get`, `Set`, `SetNx`, `DecrBy`, `Decr`).

Go byte strings are modelled as `List Nat` (one entry per byte); Go `int64`
as `Int` (with an explicit wrap at `2 ^ 64` where overflow can matter, and an
explicit range check where `strconv.ParseInt` performs one).  Go maps are
modelled as association lists observed only through `mapLookup`; inserting
prepends, which is observationally the same as overwriting.  Fallible Go code
returns `Except`/`Option`; a Go runtime panic in modelled code is an explicit
error value.
-/

/-- A Go byte string / `[]byte`: one natural number per byte. -/
abbrev Bytes := List Nat

/-- The bytes of an ASCII Lean string literal (used for Go string constants). -/
def strBytes (s : String) : Bytes := s.toList.map Char.toNat

/-- `Delims = []byte("\r\n")` from `const.go`. -/
def crlf : Bytes := [13, 10]

/-- `NullBulk = []byte("-1")` from `const.go`. -/
def nullBulk : Bytes := [45, 49]

/-- Association-list lookup, mirroring a Go map read `v, ok := m[k]`. -/
def mapLookup {α β : Type} [DecidableEq α] : List (α × β) → α → Option β
  | [], _ => none
  | (k, v) :: rest, a => if a = k then some v else mapLookup rest a

/-- Association-list write, mirroring a Go map write `m[k] = v`.  Prepending
shadows any earlier binding, which is observationally identical to overwrite
since maps are only read through `mapLookup`. -/
def mapSet {α β : Type} [DecidableEq α] (m : List (α × β)) (k : α) (v : β) :
    List (α × β) := (k, v) :: m

theorem mapLookup_mapSet {α β : Type} [DecidableEq α] (m : List (α × β)) (k : α) (v : β) :
    mapLookup (mapSet m k v) k = some v := by
  simp [mapSet, mapLookup]

/-! ## Decimal integers: `strconv.AppendInt` / `strconv.ParseInt` (base 10)

The Go code formats and parses integers with the standard library.  The
library is not part of this repository, so its base-10 behaviour is embedded
directly: canonical decimal formatting, and parsing that accepts an optional
sign followed by at least one digit with an `int64` range check. -/

/-- Reference recursion for decimal digits (division form, used in proofs). -/
def fmtNatRec (n : Nat) : Bytes :=
  if h : n < 10 then [n + 48]
  else fmtNatRec (n / 10) ++ [n % 10 + 48]
  decreasing_by exact Nat.div_lt_self (by omega) (by omega)

/-- Fuel-driven digit accumulator (structurally recursive, so it computes by
`rfl`); with fuel above the digit count it agrees with `fmtNatRec`. -/
def fmtNatAux : Nat → Nat → Bytes → Bytes
  | 0, _, acc => acc
  | fuel + 1, n, acc =>
    if n < 10 then (n + 48) :: acc
    else fmtNatAux fuel (n / 10) ((n % 10 + 48) :: acc)

/-- Decimal digits of a natural number, most significant first
(`strconv.AppendInt` for non-negative values; `0` formats as `"0"`). -/
def fmtNatCore (n : Nat) : Bytes := fmtNatAux (n + 1) n []

/-- `strconv.AppendInt(nil, n, 10)`: optional minus sign then decimal digits. -/
def fmtInt (n : Int) : Bytes :=
  if n < 0 then 45 :: fmtNatCore n.natAbs else fmtNatCore n.natAbs

/-- Accumulating decimal-digit parser; `none` on any non-digit byte. -/
def parseDigitsAux (acc : Nat) : Bytes → Option Nat
  | [] => some acc
  | c :: cs => if 48 ≤ c ∧ c ≤ 57 then parseDigitsAux (acc * 10 + (c - 48)) cs else none

/-- Errors arising in the modelled Go code. -/
inductive GErr where
  /-- `io.EOF` or `io.ErrUnexpectedEOF` (input ran out). -/
  | eof
  /-- `errLineFormat` ("bad response line format"). -/
  | lineFormat
  /-- `errReadRequest` ("invalid request protocol"). -/
  | readRequest
  /-- `errBadBulkFormat` ("bad bulk string format"). -/
  | badBulk
  /-- a `strconv` syntax error -/
  | numSyntax
  /-- a `strconv` range error (`int64` overflow) -/
  | numRange
  /-- `errors.New("malformed byte")` from `ParseByte` on an empty payload -/
  | malformedByte
  /-- `errors.New("malformed error")` from `ParseError` on an empty payload -/
  | malformedErr
  /-- a `json.Unmarshal` failure -/
  | jsonErr
  /-- a Go runtime panic (negative `make`, failed type assertion) -/
  | panicked
  /-- recursion fuel exhausted (an artefact of the embedding, never reached
  with fuel at least the nesting depth) -/
  | fuelOut
  deriving DecidableEq, Repr

/-- `strconv.ParseInt(string(b), 10, 64)`: optional `+`/`-` sign, then one or
more decimal digits, with an `int64` range check. -/
def parseIntGo (b : Bytes) : Except GErr Int :=
  match b with
  | [] => .error .numSyntax
  | c :: rest =>
    let signed : Bool × Bytes :=
      if c = 45 then (true, rest) else if c = 43 then (false, rest) else (false, b)
    match signed.2 with
    | [] => .error .numSyntax
    | digs =>
      match parseDigitsAux 0 digs with
      | none => .error .numSyntax
      | some m =>
        let v : Int := if signed.1 then -(m : Int) else (m : Int)
        if v < -(2 ^ 63) ∨ (2 ^ 63 : Int) ≤ v then .error .numRange else .ok v

/-! round-trip facts about the decimal embedding -/

theorem parseDigitsAux_append (acc : Nat) (xs ys : Bytes) :
    parseDigitsAux acc (xs ++ ys) =
      match parseDigitsAux acc xs with
      | some a => parseDigitsAux a ys
      | none => none := by
  induction xs generalizing acc with
  | nil => simp [parseDigitsAux]
  | cons c cs ih =>
    by_cases h : 48 ≤ c ∧ c ≤ 57 <;> simp [parseDigitsAux, h, ih]

theorem fmtNatAux_eq_rec (fuel : Nat) :
    ∀ n acc, n ≤ fuel → fmtNatAux (fuel + 1) n acc = fmtNatRec n ++ acc := by
  induction fuel with
  | zero =>
    intro n acc h
    have hn : n = 0 := Nat.le_zero.mp h
    subst hn
    rw [fmtNatAux, fmtNatRec]
    simp
  | succ fuel ih =>
    intro n acc h
    rw [fmtNatAux, fmtNatRec]
    by_cases hn : n < 10
    · simp [hn]
    · simp only [hn, if_false, dite_false]
      rw [ih (n / 10) ((n % 10 + 48) :: acc) (by omega)]
      simp

theorem fmtNatCore_eq_rec (n : Nat) : fmtNatCore n = fmtNatRec n := by
  rw [fmtNatCore, fmtNatAux_eq_rec n n [] (le_refl n), List.append_nil]

theorem fmtNatRec_digits (n : Nat) : ∀ c ∈ fmtNatRec n, 48 ≤ c ∧ c ≤ 57 := by
  induction n using Nat.strong_induction_on with
  | _ n ih =>
    rw [fmtNatRec]
    by_cases h : n < 10
    · simp only [h, dite_true, List.mem_singleton]
      intro c hc; subst hc; omega
    · simp only [h, dite_false, List.mem_append, List.mem_singleton]
      intro c hc
      rcases hc with hc | hc
      · exact ih (n / 10) (Nat.div_lt_self (by omega) (by omega)) c hc
      · subst hc
        omega

theorem fmtNatCore_digits (n : Nat) : ∀ c ∈ fmtNatCore n, 48 ≤ c ∧ c ≤ 57 := by
  rw [fmtNatCore_eq_rec]
  exact fmtNatRec_digits n

theorem fmtNatRec_ne_nil (n : Nat) : fmtNatRec n ≠ [] := by
  rw [fmtNatRec]
  by_cases h : n < 10 <;> simp [h]

theorem fmtNatCore_ne_nil (n : Nat) : fmtNatCore n ≠ [] := by
  rw [fmtNatCore_eq_rec]
  exact fmtNatRec_ne_nil n

theorem parseDigitsAux_fmtNatRec (n : Nat) :
    ∀ acc, parseDigitsAux acc (fmtNatRec n) =
      some (acc * 10 ^ (fmtNatRec n).length + n) := by
  induction n using Nat.strong_induction_on with
  | _ n ih =>
    intro acc
    rw [fmtNatRec]
    by_cases h : n < 10
    · have h48 : 48 ≤ n + 48 ∧ n + 48 ≤ 57 := by omega
      simp [h, parseDigitsAux, h48]
    · simp only [h, dite_false]
      rw [parseDigitsAux_append, ih (n / 10) (Nat.div_lt_self (by omega) (by omega)) acc]
      have hd : 48 ≤ n % 10 + 48 ∧ n % 10 + 48 ≤ 57 := by omega
      simp only [parseDigitsAux, hd, and_self, if_true, List.length_append,
        List.length_singleton]
      congr 1
      have hmod : n % 10 + 48 - 48 = n % 10 := by omega
      rw [hmod, pow_succ]
      have := Nat.div_add_mod n 10
      ring_nf
      omega

theorem parseDigits_fmtNatCore (n : Nat) : parseDigitsAux 0 (fmtNatCore n) = some n := by
  rw [fmtNatCore_eq_rec]
  simpa using parseDigitsAux_fmtNatRec n 0

theorem fmtInt_ne_nil (n : Int) : fmtInt n ≠ [] := by
  unfold fmtInt
  by_cases h : n < 0 <;> simp [h, fmtNatCore_ne_nil]

theorem fmtInt_no_newline (n : Int) : 10 ∉ fmtInt n := by
  unfold fmtInt
  by_cases h : n < 0
  · simp only [h, if_true, List.mem_cons]
    rintro (h10 | h10)
    · omega
    · have := fmtNatCore_digits n.natAbs 10 h10; omega
  · simp only [h, if_false]
    intro h10
    have := fmtNatCore_digits n.natAbs 10 h10; omega

theorem parseIntGo_fmtInt (n : Int) (hlo : -(2 ^ 63) ≤ n) (hhi : n < 2 ^ 63) :
    parseIntGo (fmtInt n) = .ok n := by
  unfold fmtInt parseIntGo
  by_cases h : n < 0
  · simp only [h, if_true]
    have hne := fmtNatCore_ne_nil n.natAbs
    cases hcore : fmtNatCore n.natAbs with
    | nil => exact absurd hcore hne
    | cons d ds =>
      simp only [if_pos rfl]
      rw [← hcore, parseDigits_fmtNatCore]
      have habs : ((n.natAbs : Nat) : Int) = -n :=
        Int.ofNat_natAbs_of_nonpos (by omega)
      simp only [habs, neg_neg]
      have hcond : ¬(n < -(2 ^ 63) ∨ (2 ^ 63 : Int) ≤ n) := by omega
      simp [hcond]
      omega
  · simp only [h, if_false]
    have hne := fmtNatCore_ne_nil n.natAbs
    have hd := fmtNatCore_digits n.natAbs
    cases hcore : fmtNatCore n.natAbs with
    | nil => exact absurd hcore hne
    | cons d ds =>
      have hd0 : 48 ≤ d ∧ d ≤ 57 := hd d (by rw [hcore]; exact List.mem_cons_self _ _)
      have h45 : ¬(d = 45) := by omega
      have h43 : ¬(d = 43) := by omega
      simp only [h45, h43, if_false]
      rw [← hcore, parseDigits_fmtNatCore]
      have habs : ((n.natAbs : Nat) : Int) = n := Int.natAbs_of_nonneg (by omega)
      simp only [habs]
      have hcond : ¬(n < -(2 ^ 63) ∨ (2 ^ 63 : Int) ≤ n) := by omega
      simp [hcond]
      omega

/-! ## Buffered reading: `ReadLine` and `io.ReadFull`

`BufferClient.ReadLine` (`part_007`, lines 806-818) calls
`Reader.ReadSlice('\n')`, which returns the bytes up to and including the
first newline (an error if the input ends first), then demands that the byte
before the newline is `'\r'` and strips the two delimiters.  The reader is
modelled as the remaining byte stream; buffer capacity is idealised as
unbounded. -/

/-- `bufio.Reader.ReadSlice('\n')`: the packet up to and including the first
newline, plus the remaining stream; `none` when the stream has no newline. -/
def takeUntilNl : Bytes → Option (Bytes × Bytes)
  | [] => none
  | c :: cs =>
    if c = 10 then some ([10], cs)
    else
      match takeUntilNl cs with
      | none => none
      | some (p, r) => some (c :: p, r)

/-- `BufferClient.ReadLine`: read a packet, require the CR before the LF,
return the line without its delimiters. -/
def readLineGo (s : Bytes) : Except GErr (Bytes × Bytes) :=
  match takeUntilNl s with
  | none => .error .eof
  | some (packet, rest) =>
    -- i := len(packet) - 2; if i < 0 || packet[i] != '\r' { errLineFormat }
    if packet.length < 2 then .error .lineFormat
    else if packet[packet.length - 2]? = some 13 then
      .ok (packet.take (packet.length - 2), rest)
    else .error .lineFormat

/-- `io.ReadFull(reader, buffer)` for a buffer of length `n`. -/
def readFullGo (n : Nat) (s : Bytes) : Except GErr (Bytes × Bytes) :=
  if s.length < n then .error .eof else .ok (s.take n, s.drop n)

theorem takeUntilNl_append (l : Bytes) (hl : 10 ∉ l) (rest : Bytes) :
    takeUntilNl (l ++ 13 :: 10 :: rest) = some (l ++ [13, 10], rest) := by
  induction l with
  | nil => simp [takeUntilNl]
  | cons c cs ih =>
    have hc : c ≠ 10 := fun h => hl (h ▸ List.mem_cons_self c cs)
    have hcs : 10 ∉ cs := fun h => hl (List.mem_cons_of_mem c h)
    simp [takeUntilNl, hc, ih hcs]

theorem readLineGo_round (l : Bytes) (hl : 10 ∉ l) (rest : Bytes) :
    readLineGo (l ++ 13 :: 10 :: rest) = .ok (l, rest) := by
  rw [readLineGo, takeUntilNl_append l hl rest]
  have hlen : (l ++ [13, 10]).length = l.length + 2 := by simp
  have hnotlt : ¬ (l ++ [13, 10]).length < 2 := by omega
  have hidx : (l ++ [13, 10]).length - 2 = l.length := by omega
  have hget : (l ++ [13, 10])[l.length]? = some 13 := by
    rw [List.getElem?_append_right (Nat.le_refl _)]
    simp
  have htake : (l ++ [13, 10]).take l.length = l := by
    rw [List.take_append_eq_append_take]
    simp
  simp only [hnotlt, if_false, hidx, hget, if_pos rfl, htake, if_true]

theorem readFullGo_round (b rest : Bytes) :
    readFullGo b.length (b ++ rest) = .ok (b, rest) := by
  have hlen : (b ++ rest).length = b.length + rest.length := by simp
  have h : ¬ (b ++ rest).length < b.length := by omega
  rw [readFullGo, if_neg h, List.take_append_eq_append_take, List.drop_append_eq_append_drop]
  simp

/-! ## The tagged-scalar codec (`BufferClient`, `part_007` lines 336-836)

`WriteInterface` writes one Go `interface{}` value; its type switch covers
`string`, `int`, `int64`, `float64`, `bool`, `byte`, `[]byte` and `nil`, and
everything else (including `error` values, slices and maps) falls to the
`default:` branch, which writes `fmt.Fprint`'s text of the value as a
length-prefixed `$` payload.  `ReadInterface` reads one value back, returning
`[]byte` for `$`, `[]interface{}` for `*`, and a decoded JSON structure for
`~json`.

`float64` values and JSON structures live in the Go standard library
(`strconv.AppendFloat/ParseFloat` with shortest round-trip formatting, and
`encoding/json`), so they are parameters of the embedding (`GoStd`), used
abstractly. -/

/-- A Go `interface{}` value as the codec sees it.  `F` stands for Go's
`float64`, `J` for the `map[string]interface{}` produced by `json.Unmarshal`. -/
inductive GoVal (F J : Type) where
  /-- a Go `string` -/
  | str (s : Bytes)
  /-- a Go `int` or `int64` (both encode through `WriteInt64`) -/
  | int (n : Int)
  /-- a Go `float64` -/
  | float (f : F)
  /-- a Go `bool` -/
  | bool (b : Bool)
  /-- a Go `byte` -/
  | byte (b : Nat)
  /-- a Go `[]byte` -/
  | bytes (b : Bytes)
  /-- Go `nil` -/
  | null
  /-- a Go `error` value, carrying its `Error()` message -/
  | err (m : Bytes)
  /-- a Go `[]interface{}` -/
  | arr (vs : List (GoVal F J))
  /-- a decoded JSON structure -/
  | json (j : J)

/-- The standard-library behaviour the codec depends on, held abstract:
float formatting/parsing, JSON decoding, and `fmt.Fprint`'s text for the
values that reach `WriteInterface`'s `default:` branch. -/
structure GoStd (F J : Type) where
  /-- `strconv.AppendFloat(nil, f, 'g', -1, 64)` -/
  fmtFloat : F → Bytes
  /-- `strconv.ParseFloat(s, 64)`; `none` is a parse error -/
  parseFloat : Bytes → Option F
  /-- `float64(0)`, returned by `ParseFloat64` for an empty payload -/
  zeroFloat : F
  /-- `json.Unmarshal` into `map[string]interface{}`; `none` is an error -/
  jsonParse : Bytes → Option J
  /-- `fmt.Fprint` of a `[]interface{}` (reached only via `default:`) -/
  printArr : List (GoVal F J) → Bytes
  /-- `fmt.Fprint` of a JSON structure (reached only via `default:`) -/
  printJson : J → Bytes

variable {F J : Type}

/-- `BufferClient.WriteLen(prefix, n)`: the prefix byte, the decimal length,
CR LF. -/
def writeLenGo (pfx : Nat) (n : Int) : Bytes := pfx :: fmtInt n ++ crlf

/-- `BufferClient.WriteString`: `'+'`, the text, CR LF. -/
def writeStringGo (s : Bytes) : Bytes := 43 :: s ++ crlf

/-- `BufferClient.WriteByte`: `'&'`, the byte, CR LF. -/
def writeByteGo (b : Nat) : Bytes := 38 :: b :: crlf

/-- `BufferClient.WriteBytes`: `'$'`, decimal length, CR LF, the bytes, CR LF. -/
def writeBytesGo (b : Bytes) : Bytes := writeLenGo 36 b.length ++ b ++ crlf

/-- `BufferClient.WriteInt64`: `':'`, decimal digits, CR LF. -/
def writeInt64Go (n : Int) : Bytes := 58 :: fmtInt n ++ crlf

/-- `BufferClient.WriteBool`: `'?'`, `'1'` or `'0'`, CR LF. -/
def writeBoolGo (b : Bool) : Bytes := 63 :: (if b then 49 else 48) :: crlf

/-- `BufferClient.WriteError(e)`: `'-'`, `"ERR "` and the message (just
`"ERR "` when `e` is nil), CR LF. -/
def writeErrorGo (e : Option Bytes) : Bytes :=
  match e with
  | some m => 45 :: (strBytes "ERR " ++ m) ++ crlf
  | none => 45 :: strBytes "ERR " ++ crlf

/-- `BufferClient.WriteNull`: `'$'`, `NullBulk` (`"-1"`), CR LF. -/
def writeNullGo : Bytes := 36 :: nullBulk ++ crlf

/-- `BufferClient.WriteFloat64`: `'.'`, the shortest float text, CR LF. -/
def writeFloat64Go (std : GoStd F J) (f : F) : Bytes := 46 :: std.fmtFloat f ++ crlf

/-- `BufferClient.WriteInterface` (`part_007` lines 536-562): one tagged
scalar per type-switch case; `error`, slice and JSON values hit the
`default:` branch and are written as `$` payloads of their `fmt` text. -/
def writeInterface (std : GoStd F J) : GoVal F J → Bytes
  | .str s => writeStringGo s
  | .int n => writeInt64Go n
  | .float f => writeFloat64Go std f
  | .bool b => writeBoolGo b
  | .byte b => writeByteGo b
  | .bytes b => writeBytesGo b
  | .null => writeNullGo
  | .err m => writeBytesGo m          -- default: fmt.Fprint of an error is Error()
  | .arr vs => writeBytesGo (std.printArr vs)
  | .json j => writeBytesGo (std.printJson j)

/-- `BufferClient.WriteArray` (`part_007` lines 564-574): a `*` count line
followed by `WriteInterface` of each element. -/
def writeArray (std : GoStd F J) (vs : List (GoVal F J)) : Bytes :=
  writeLenGo 42 vs.length ++ (vs.map (writeInterface std)).flatten

/-- `BufferClient.WriteBulk` (`part_007` lines 528-534): a `*` count line
followed by `WriteBytes` of each element. -/
def writeBulkGo (data : List Bytes) : Bytes :=
  writeLenGo 42 data.length ++ (data.map writeBytesGo).flatten

/-- `BufferClient.ParseByte`: first byte of the payload; error when empty. -/
def parseByteGo (b : Bytes) : Except GErr Nat :=
  match b with
  | [] => .error .malformedByte
  | c :: _ => .ok c

/-- `BufferClient.ParseInt64`: empty payload parses as zero. -/
def parseInt64Go (b : Bytes) : Except GErr Int :=
  match b with
  | [] => .ok 0
  | _ => parseIntGo b

/-- `BufferClient.ParseFloat64`: empty payload parses as zero. -/
def parseFloat64Go (std : GoStd F J) (b : Bytes) : Except GErr F :=
  match b with
  | [] => .ok std.zeroFloat
  | _ =>
    match std.parseFloat b with
    | some f => .ok f
    | none => .error .numSyntax

/-- `BufferClient.ParseBool`: empty payload is `false`, else first byte
compared with `'1'`. -/
def parseBoolGo (b : Bytes) : Bool :=
  match b with
  | [] => false
  | c :: _ => c = 49

/-- `BufferClient.ParseError`: the payload as an error value; error when
empty. -/
def parseErrorGo (b : Bytes) : Except GErr Bytes :=
  match b with
  | [] => .error .malformedErr
  | _ => .ok b

/-- The `case '*'` loop of `ReadInterface` filling
`r := make([]interface{}, n)`: read `n` values with the given reader,
threading the remaining stream. -/
def readManyAux {F J : Type} (rd : Bytes → Except GErr (GoVal F J × Bytes)) :
    Nat → Bytes → Except GErr (List (GoVal F J) × Bytes)
  | 0, s => .ok ([], s)
  | n + 1, s =>
    match rd s with
    | .error e => .error e
    | .ok (v, rest) =>
      match readManyAux rd n rest with
      | .error e => .error e
      | .ok (vs, r) => .ok (v :: vs, r)

/-- `BufferClient.ReadInterface` (`part_007` lines 676-764), with explicit
recursion fuel (the Go code recurses on the stream; fuel at least the value's
nesting depth reproduces it exactly).  Structurally recursive on the fuel so
that it computes by `rfl` on closed inputs. -/
def readInterfaceGo (std : GoStd F J) : Nat → Bytes → Except GErr (GoVal F J × Bytes)
  | 0 => fun _ => .error .fuelOut
  | fuel + 1 => fun s =>
    match readLineGo s with
    | .error e => .error e
    | .ok (line, rest) =>
      if line.length < 2 then .error .readRequest
      else
        match line with
        | [] => .error .readRequest    -- unreachable: length ≥ 2
        | c :: payload =>
          if c = 36 then               -- '$'
            match parseInt64Go payload with
            | .error e => .error e
            | .ok n =>
              if n = -1 then .ok (.null, rest)
              else if n < 0 then .error .panicked   -- make([]byte, n) panics
              else
                match readFullGo n.toNat rest with
                | .error e => .error e
                | .ok (buffer, rest1) =>
                  match readLineGo rest1 with
                  | .error e => .error e
                  | .ok (l2, rest2) =>
                    if l2.length ≠ 0 then .error .badBulk
                    else .ok (.bytes buffer, rest2)
          else if c = 42 then          -- '*'
            match parseInt64Go payload with
            | .error e => .error e
            | .ok n =>
              if n < 0 then .error .panicked        -- make([]interface{}, n) panics
              else
                match readManyAux (readInterfaceGo std fuel) n.toNat rest with
                | .error e => .error e
                | .ok (vs, r) => .ok (.arr vs, r)
          else if c = 38 then          -- '&'
            match parseByteGo payload with
            | .error e => .error e
            | .ok b => .ok (.byte b, rest)
          else if c = 43 then          -- '+'
            .ok (.str payload, rest)
          else if c = 58 then          -- ':'
            match parseInt64Go payload with
            | .error e => .error e
            | .ok n => .ok (.int n, rest)
          else if c = 46 then          -- '.'
            match parseFloat64Go std payload with
            | .error e => .error e
            | .ok f => .ok (.float f, rest)
          else if c = 63 then          -- '?'
            .ok (.bool (parseBoolGo payload), rest)
          else if c = 45 then          -- '-'
            match parseErrorGo payload with
            | .error e => .error e
            | .ok m => .ok (.err m, rest)
          else if c = 126 then         -- '~'
            -- structure name, then a recursive read, then json.Unmarshal
            match readInterfaceGo std fuel rest with
            | .error e => .error e
            | .ok (r, rest1) =>
              if payload = strBytes "json" then
                match r with
                | .bytes b =>
                  match std.jsonParse b with
                  | some j => .ok (.json j, rest1)
                  | none => .error .jsonErr
                | _ => .error .panicked               -- r.([]byte) assertion fails
              else .error .readRequest
          else .error .readRequest

/-! ## Round-trip of the tagged-scalar codec -/

/-- The Go standard library's documented shortest-round-trip guarantee for
`strconv.AppendFloat(_, f, 'g', -1, 64)` / `ParseFloat(_, 64)`: parsing the
formatted text returns the same float, and the text is non-empty and contains
no newline byte. -/
def FloatRT (std : GoStd F J) : Prop :=
  ∀ f, std.parseFloat (std.fmtFloat f) = some f ∧
    std.fmtFloat f ≠ [] ∧ 10 ∉ std.fmtFloat f

/-- The scalar values whose `WriteInterface` encoding decodes back to
themselves: non-empty newline-free strings, `int64`-range integers, floats,
booleans, non-newline bytes, byte strings (of `int64`-bounded length), and
nil.  Error values are excluded (`WriteInterface` sends them through the
`default:` branch as `$` payloads), as are arrays and JSON structures
(`default:` branch likewise). -/
def ValidScalar : GoVal F J → Prop
  | .str s => s ≠ [] ∧ 10 ∉ s
  | .int n => -(2 ^ 63) ≤ n ∧ n < 2 ^ 63
  | .float _ => True
  | .bool _ => True
  | .byte b => b ≠ 10
  | .bytes b => (b.length : Int) < 2 ^ 63
  | .null => True
  | .err _ => False
  | .arr _ => False
  | .json _ => False

theorem parseInt64Go_ne_nil (b : Bytes) (h : b ≠ []) : parseInt64Go b = parseIntGo b := by
  cases b with
  | nil => exact absurd rfl h
  | cons c cs => rfl

theorem parseInt64Go_fmtInt (n : Int) (hlo : -(2 ^ 63) ≤ n) (hhi : n < 2 ^ 63) :
    parseInt64Go (fmtInt n) = .ok n := by
  rw [parseInt64Go_ne_nil _ (fmtInt_ne_nil n), parseIntGo_fmtInt n hlo hhi]

theorem parseFloat64Go_fmt (std : GoStd F J) (hstd : FloatRT std) (f : F) :
    parseFloat64Go std (std.fmtFloat f) = .ok f := by
  obtain ⟨hparse, hne, -⟩ := hstd f
  cases hb : std.fmtFloat f with
  | nil => exact absurd hb hne
  | cons c cs =>
    rw [hb] at hparse
    simp [parseFloat64Go, hparse]

theorem writeTagged_shape (c : Nat) (payload rest : Bytes) :
    (c :: payload ++ crlf) ++ rest = (c :: payload) ++ 13 :: 10 :: rest := by
  simp [crlf]

theorem readInterface_str (std : GoStd F J) (fuel : Nat) (s rest : Bytes)
    (hne : s ≠ []) (h10 : 10 ∉ s) :
    readInterfaceGo std (fuel + 1) (writeStringGo s ++ rest) = .ok (.str s, rest) := by
  have h10' : 10 ∉ 43 :: s := by
    intro h
    rcases List.mem_cons.mp h with h | h
    · omega
    · exact h10 h
  rw [writeStringGo, writeTagged_shape, readInterfaceGo]
  simp only [readLineGo_round _ h10']
  have hpos : 1 ≤ s.length := List.length_pos.mpr hne
  simp [hpos]

theorem readInterface_int (std : GoStd F J) (fuel : Nat) (n : Int) (rest : Bytes)
    (hlo : -(2 ^ 63) ≤ n) (hhi : n < 2 ^ 63) :
    readInterfaceGo std (fuel + 1) (writeInt64Go n ++ rest) = .ok (.int n, rest) := by
  have h10' : 10 ∉ 58 :: fmtInt n := by
    intro h
    rcases List.mem_cons.mp h with h | h
    · omega
    · exact fmtInt_no_newline n h
  rw [writeInt64Go, writeTagged_shape, readInterfaceGo]
  simp only [readLineGo_round _ h10']
  have hpos : 1 ≤ (fmtInt n).length := List.length_pos.mpr (fmtInt_ne_nil n)
  simp [hpos, parseInt64Go_fmtInt n hlo hhi]

theorem readInterface_float (std : GoStd F J) (hstd : FloatRT std) (fuel : Nat)
    (f : F) (rest : Bytes) :
    readInterfaceGo std (fuel + 1) (writeFloat64Go std f ++ rest) = .ok (.float f, rest) := by
  obtain ⟨-, hne, h10⟩ := hstd f
  have h10' : 10 ∉ 46 :: std.fmtFloat f := by
    intro h
    rcases List.mem_cons.mp h with h | h
    · omega
    · exact h10 h
  rw [writeFloat64Go, writeTagged_shape, readInterfaceGo]
  simp only [readLineGo_round _ h10']
  have hpos : 1 ≤ (std.fmtFloat f).length := List.length_pos.mpr hne
  simp [hpos, parseFloat64Go_fmt std hstd f]

theorem readInterface_bool (std : GoStd F J) (fuel : Nat) (b : Bool) (rest : Bytes) :
    readInterfaceGo std (fuel + 1) (writeBoolGo b ++ rest) = .ok (.bool b, rest) := by
  have h10' : 10 ∉ 63 :: [if b then 49 else 48] := by cases b <;> decide
  have hshape : writeBoolGo b ++ rest = (63 :: [if b then 49 else 48]) ++ 13 :: 10 :: rest := by
    cases b <;> simp [writeBoolGo, crlf]
  rw [hshape, readInterfaceGo]
  simp only [readLineGo_round _ h10']
  cases b <;> simp [parseBoolGo]

theorem readInterface_byte (std : GoStd F J) (fuel : Nat) (b : Nat) (rest : Bytes)
    (hb : b ≠ 10) :
    readInterfaceGo std (fuel + 1) (writeByteGo b ++ rest) = .ok (.byte b, rest) := by
  have h10' : 10 ∉ 38 :: [b] := by
    intro h
    rcases List.mem_cons.mp h with h | h
    · omega
    · exact hb (List.mem_singleton.mp h).symm
  have hshape : writeByteGo b ++ rest = (38 :: [b]) ++ 13 :: 10 :: rest := by
    simp [writeByteGo, crlf]
  rw [hshape, readInterfaceGo]
  simp only [readLineGo_round _ h10']
  simp [parseByteGo]

theorem readInterface_null (std : GoStd F J) (fuel : Nat) (rest : Bytes) :
    readInterfaceGo std (fuel + 1) (writeNullGo ++ rest) = .ok (.null, rest) := by
  have h10' : 10 ∉ 36 :: nullBulk := by decide
  have hshape : writeNullGo ++ rest = (36 :: nullBulk) ++ 13 :: 10 :: rest := by
    simp [writeNullGo, nullBulk, crlf]
  rw [hshape, readInterfaceGo]
  simp only [readLineGo_round _ h10']
  have hparse : parseInt64Go [45, 49] = .ok (-1) := rfl
  simp [nullBulk, hparse]

theorem readInterface_bytes (std : GoStd F J) (fuel : Nat) (b rest : Bytes)
    (hlen : (b.length : Int) < 2 ^ 63) :
    readInterfaceGo std (fuel + 1) (writeBytesGo b ++ rest) = .ok (.bytes b, rest) := by
  have h10' : 10 ∉ 36 :: fmtInt b.length := by
    intro h
    rcases List.mem_cons.mp h with h | h
    · omega
    · exact fmtInt_no_newline _ h
  have hshape : writeBytesGo b ++ rest =
      (36 :: fmtInt b.length) ++ 13 :: 10 :: (b ++ 13 :: 10 :: rest) := by
    simp [writeBytesGo, writeLenGo, crlf]
  rw [hshape, readInterfaceGo]
  simp only [readLineGo_round _ h10']
  have hpos : 1 ≤ (fmtInt (b.length : Int)).length := List.length_pos.mpr (fmtInt_ne_nil _)
  have hparse : parseInt64Go (fmtInt (b.length : Int)) = .ok b.length :=
    parseInt64Go_fmtInt _ (by omega) hlen
  have hne1 : ¬ ((b.length : Int) = -1) := by omega
  have hneg : ¬ ((b.length : Int) < 0) := by omega
  have htonat : (b.length : Int).toNat = b.length := Int.toNat_ofNat _
  have hfull : readFullGo b.length (b ++ 13 :: 10 :: rest) = .ok (b, 13 :: 10 :: rest) :=
    readFullGo_round b _
  have hline2 : readLineGo (13 :: 10 :: rest) = .ok ([], rest) := by
    have := readLineGo_round [] (by simp) rest
    simpa using this
  simp [hpos, hparse, hne1, hneg, htonat, hfull, hline2]

/-- Round-trip for every valid scalar: `ReadInterface` undoes
`WriteInterface`, leaving trailing bytes untouched. -/
theorem readInterface_writeInterface (std : GoStd F J) (hstd : FloatRT std)
    (v : GoVal F J) (hv : ValidScalar v) (fuel : Nat) (rest : Bytes) :
    readInterfaceGo std (fuel + 1) (writeInterface std v ++ rest) = .ok (v, rest) := by
  cases v with
  | str s => exact readInterface_str std fuel s rest hv.1 hv.2
  | int n => exact readInterface_int std fuel n rest hv.1 hv.2
  | float f => exact readInterface_float std hstd fuel f rest
  | bool b => exact readInterface_bool std fuel b rest
  | byte b => exact readInterface_byte std fuel b rest hv
  | bytes b => exact readInterface_bytes std fuel b rest hv
  | null => exact readInterface_null std fuel rest
  | err m => exact absurd hv not_false
  | arr vs => exact absurd hv not_false
  | json j => exact absurd hv not_false

/-- The `case '*'` loop restores a list of valid scalars from the
concatenation of their encodings. -/
theorem readManyAux_flatten (std : GoStd F J) (hstd : FloatRT std)
    (vs : List (GoVal F J)) (hvs : ∀ v ∈ vs, ValidScalar v) (fuel : Nat) (rest : Bytes) :
    readManyAux (readInterfaceGo std (fuel + 1)) vs.length
      ((vs.map (writeInterface std)).flatten ++ rest) = .ok (vs, rest) := by
  induction vs generalizing rest with
  | nil => simp [readManyAux]
  | cons v vs ih =>
    have hv : ValidScalar v := hvs v (List.mem_cons_self _ _)
    have hvs' : ∀ w ∈ vs, ValidScalar w := fun w hw => hvs w (List.mem_cons_of_mem _ hw)
    rw [List.length_cons, readManyAux]
    have hshape : ((v :: vs).map (writeInterface std)).flatten ++ rest =
        writeInterface std v ++ ((vs.map (writeInterface std)).flatten ++ rest) := by
      simp
    rw [hshape, readInterface_writeInterface std hstd v hv fuel]
    simp [ih hvs' rest]

/-- `ReadInterface` undoes `WriteArray` on any array of valid scalars. -/
theorem readInterface_writeArray (std : GoStd F J) (hstd : FloatRT std)
    (vs : List (GoVal F J)) (hvs : ∀ v ∈ vs, ValidScalar v)
    (hlen : (vs.length : Int) < 2 ^ 63) (fuel : Nat) (rest : Bytes) :
    readInterfaceGo std (fuel + 2) (writeArray std vs ++ rest) = .ok (.arr vs, rest) := by
  have h10' : 10 ∉ 42 :: fmtInt vs.length := by
    intro h
    rcases List.mem_cons.mp h with h | h
    · omega
    · exact fmtInt_no_newline _ h
  have hshape : writeArray std vs ++ rest =
      (42 :: fmtInt vs.length) ++ 13 :: 10 :: ((vs.map (writeInterface std)).flatten ++ rest) := by
    simp [writeArray, writeLenGo, crlf]
  rw [hshape, readInterfaceGo]
  simp only [readLineGo_round _ h10']
  have hpos : 1 ≤ (fmtInt (vs.length : Int)).length := List.length_pos.mpr (fmtInt_ne_nil _)
  have hparse : parseInt64Go (fmtInt (vs.length : Int)) = .ok vs.length :=
    parseInt64Go_fmtInt _ (by omega) hlen
  have hneg : ¬ ((vs.length : Int) < 0) := by omega
  have htonat : (vs.length : Int).toNat = vs.length := Int.toNat_ofNat _
  have hmany := readManyAux_flatten std hstd vs hvs fuel rest
  simp [hpos, hparse, hneg, htonat, hmany]

/-- A concrete `GoStd` instantiation (floats and JSON structures collapsed to
`Unit`) used to evaluate the codec on closed inputs. -/
def stdU : GoStd Unit Unit where
  fmtFloat _ := [48]
  parseFloat b := if b = [48] then some () else none
  zeroFloat := ()
  jsonParse _ := none
  printArr _ := []
  printJson _ := []

theorem stdU_floatRT : FloatRT stdU := by
  intro f
  cases f
  exact ⟨rfl, by decide, by decide⟩

/-- C1, counterexample.  The claim quantifies over every supported scalar
type including errors and every simple string.  (a) An error value is written
by `WriteInterface`'s `default:` branch as a `$` payload of its message, so
it decodes to a `[]byte` value, not the error; (b) the empty simple string
encodes as `"+\r\n"`, whose line is shorter than two bytes, so decoding fails
with `errReadRequest` instead of yielding the string. -/
theorem c1_counterexample :
    (readInterfaceGo stdU 1 (writeInterface stdU (GoVal.err (strBytes "boom"))) =
        .ok (GoVal.bytes (strBytes "boom"), []) ∧
      (GoVal.bytes (strBytes "boom") : GoVal Unit Unit) ≠ GoVal.err (strBytes "boom")) ∧
    readInterfaceGo stdU 1 (writeInterface stdU (GoVal.str [])) = .error .readRequest := by
  refine ⟨⟨rfl, fun h => GoVal.noConfusion h⟩, rfl⟩

/-- C1, amended.  For every tagged scalar value of a supported type other
than an error — with simple strings non-empty and newline-free, single bytes
not the newline byte, integers in `int64` range and byte payloads of
`int64`-bounded length — decoding the `WriteInterface` encoding yields the
value back (with any trailing bytes untouched), and likewise `WriteArray`
encodings of arrays of such values decode to the same array.  `fuel` is the
decoder's recursion allowance; one level suffices for scalars, two for a
flat array. -/
theorem c1_roundtrip_amended (std : GoStd F J) (hstd : FloatRT std) :
    (∀ (v : GoVal F J), ValidScalar v → ∀ (fuel : Nat) (rest : Bytes),
        readInterfaceGo std (fuel + 1) (writeInterface std v ++ rest) = .ok (v, rest)) ∧
    (∀ (vs : List (GoVal F J)), (∀ v ∈ vs, ValidScalar v) → (vs.length : Int) < 2 ^ 63 →
      ∀ (fuel : Nat) (rest : Bytes),
        readInterfaceGo std (fuel + 2) (writeArray std vs ++ rest) = .ok (.arr vs, rest)) := by
  constructor
  · intro v hv fuel rest
    exact readInterface_writeInterface std hstd v hv fuel rest
  · intro vs hvs hlen fuel rest
    exact readInterface_writeArray std hstd vs hvs hlen fuel rest

/-- C1, witness: the amended round-trip evaluated on concrete values
(`:5`, a two-element array of an integer and a boolean). -/
theorem c1_roundtrip_witness :
    readInterfaceGo stdU 1 (writeInterface stdU (GoVal.int 5) ++ []) =
      .ok (GoVal.int 5, []) ∧
    readInterfaceGo stdU 2 (writeArray stdU [GoVal.int 5, GoVal.bool true] ++ [99]) =
      .ok (.arr [GoVal.int 5, GoVal.bool true], [99]) := by
  constructor
  · exact (c1_roundtrip_amended stdU stdU_floatRT).1 (GoVal.int 5)
      (by constructor <;> decide) 0 []
  · exact (c1_roundtrip_amended stdU stdU_floatRT).2 [GoVal.int 5, GoVal.bool true]
      (by intro v hv
          rcases List.mem_cons.mp hv with h | hv
          · subst h; constructor <;> decide
          · rcases List.mem_cons.mp hv with h | hv
            · subst h; trivial
            · cases hv)
      (by decide) 0 [99]

/-! ## Command registry and per-connection dispatch

`BroadcastContext.Register` (`part_007` lines 21-24) stores handlers under
the uppercased command name; dispatch (`server/protocol.go handleData`,
`redisprotocol.go handleData`, `lineprotocol.go handleData`) uppercases the
incoming name, intercepts `QUIT`, and otherwise looks the handler up.
Command names are ASCII, so `strings.ToUpper` is byte-wise ASCII
uppercasing. -/

/-- Byte-wise ASCII uppercasing (`strings.ToUpper` on ASCII command names). -/
def asciiUpper (c : Nat) : Nat := if 97 ≤ c ∧ c ≤ 122 then c - 32 else c

/-- `strings.ToUpper` of a byte string. -/
def upperBytes (b : Bytes) : Bytes := b.map asciiUpper

/-- A handler of the bulk/line protocols
(`func(data interface{}, client server.ProtocolClient) error` applied to the
`[][]byte` arguments), modelled by the bytes it writes to the client and the
error it returns. -/
def GHandler : Type := List Bytes → Bytes × Option Bytes

/-- A handler as invoked by the typed/interface protocol, whose arguments are
decoded `interface{}` values. -/
def VHandler (F J : Type) : Type := List (GoVal F J) → Bytes × Option Bytes

/-- `BroadcastContext.Register`: `ctx.Commands[strings.ToUpper(cmd)] = handler`. -/
def registerCmd (reg : List (Bytes × GHandler)) (cmd : Bytes) (h : GHandler) :
    List (Bytes × GHandler) := mapSet reg (upperBytes cmd) h

/-- `BroadcastContext.Register` for the typed/interface protocol registry. -/
def registerCmdV (reg : List (Bytes × VHandler F J)) (cmd : Bytes) (h : VHandler F J) :
    List (Bytes × VHandler F J) := mapSet reg (upperBytes cmd) h

/-- Outcome of one `handleData` call. -/
inductive DOut where
  /-- a Go runtime panic inside `handleData` (e.g. `data[0]` on an empty
  slice, or a failed type assertion on the first element) -/
  | panicD
  /-- `errQuit` returned: the command was `QUIT` -/
  | quitD
  /-- `errCmdNotFound` returned: no handler under the (uppercased) name -/
  | missD
  /-- the handler ran, writing `w` and returning `e` -/
  | ran (w : Bytes) (e : Option Bytes)

/-- `RedisProtocol.handleData` / `LineProtocol.handleData` (identical bodies):
uppercase `data[0]`, intercept `QUIT`, then look up and run the handler.
(The goroutine/`reqErr` channel pair in the source serialises on the channel
receive immediately, so the handler call is synchronous.) -/
def dispatchBulk (reg : List (Bytes × GHandler)) (req : List Bytes) : DOut :=
  match req with
  | [] => .panicD                          -- data[0] on an empty slice panics
  | c :: args =>
    let cmd := upperBytes c
    if cmd = strBytes "QUIT" then .quitD
    else
      match mapLookup reg cmd with
      | none => .missD
      | some h => .ran (h args).1 (h args).2

/-- `DefaultBroadcastServerProtocol.handleData` (`server/protocol.go` lines
84-112): only `[]interface{}` data is dispatched (anything else falls
through and returns nil); the command name comes from the first element as
`[]uint8` or `string` (any other type fails the assertion and panics), and
the handler receives `data[1:]`. -/
def dispatchIface (reg : List (Bytes × VHandler F J)) (data : GoVal F J) : DOut :=
  match data with
  | .arr elems =>
    match elems with
    | [] =>
      -- len(data) == 0: cmd stays "", which is not QUIT; lookup of "" decides
      match mapLookup reg [] with
      | none => .missD
      | some h => .ran (h []).1 (h []).2
    | e :: args =>
      match e with
      | .bytes b =>
        let cmd := upperBytes b
        if cmd = strBytes "QUIT" then .quitD
        else
          match mapLookup reg cmd with
          | none => .missD
          | some h => .ran (h args).1 (h args).2
      | .str s =>
        let cmd := upperBytes s
        if cmd = strBytes "QUIT" then .quitD
        else
          match mapLookup reg cmd with
          | none => .missD
          | some h => .ran (h args).1 (h args).2
      | _ => .panicD                       -- data[0].(string) assertion fails
  | _ => .ran [] none                      -- non-array data: handleData returns nil

/-- A `BroadcastEvent` as sent on `ctx.Events`. -/
structure BEvent where
  level : String
  message : String
  errMsg : Option Bytes
  deriving DecidableEq

/-- Observable per-connection state built up by a dispatch loop: the bytes
written (and flushed) to the socket, the events emitted, and whether the
connection has been closed. -/
structure RunSt where
  out : Bytes
  events : List BEvent
  closed : Bool
  deriving DecidableEq

/-- the `"error" / "accept error"` event sent before writing an error reply -/
def errEv (m : Bytes) : BEvent := ⟨"error", "accept error", some m⟩

/-- the `"fatal" / "client run panic"` event sent by the deferred recover -/
def fatalEv : BEvent := ⟨"fatal", "client run panic", none⟩

/-- the message of `errCmdNotFound` (`const.go`) -/
def cmdNotFoundMsg : Bytes := strBytes "invalid command format"

/-- `RedisProtocol.RunClient` (`redisprotocol.go` lines 38-75) on a sequence
of already-decoded requests followed by EOF: each request goes through
`handleData`; `errQuit` writes `+OK`, flushes and stops (the deferred
`client.Close()` then runs); other errors emit an event, write an error
reply, flush and continue; EOF stops silently; a panic emits a fatal event
and stops.  Closing is recorded in `closed`. -/
def redisRunFrom (reg : List (Bytes × GHandler)) :
    List (List Bytes) → RunSt → RunSt
  | [], st => { st with closed := true }
  | req :: rest, st =>
    match dispatchBulk reg req with
    | .panicD => { st with events := st.events ++ [fatalEv], closed := true }
    | .quitD => { st with out := st.out ++ writeStringGo (strBytes "OK"), closed := true }
    | .missD =>
      redisRunFrom reg rest
        { st with events := st.events ++ [errEv cmdNotFoundMsg],
                  out := st.out ++ writeErrorGo (some cmdNotFoundMsg) }
    | .ran w none => redisRunFrom reg rest { st with out := st.out ++ w }
    | .ran w (some m) =>
      redisRunFrom reg rest
        { st with events := st.events ++ [errEv m],
                  out := st.out ++ w ++ writeErrorGo (some m) }

/-- `LineProtocol.RunClient` (`lineprotocol.go` lines 35-77): identical to
the redis loop except that `errQuit` just returns — no `+OK` is written
before the deferred close. -/
def lineRunFrom (reg : List (Bytes × GHandler)) :
    List (List Bytes) → RunSt → RunSt
  | [], st => { st with closed := true }
  | req :: rest, st =>
    match dispatchBulk reg req with
    | .panicD => { st with events := st.events ++ [fatalEv], closed := true }
    | .quitD => { st with closed := true }
    | .missD =>
      lineRunFrom reg rest
        { st with events := st.events ++ [errEv cmdNotFoundMsg],
                  out := st.out ++ writeErrorGo (some cmdNotFoundMsg) }
    | .ran w none => lineRunFrom reg rest { st with out := st.out ++ w }
    | .ran w (some m) =>
      lineRunFrom reg rest
        { st with events := st.events ++ [errEv m],
                  out := st.out ++ w ++ writeErrorGo (some m) }

/-- `DefaultBroadcastServerProtocol.RunClient` (`server/protocol.go` lines
46-82): same loop shape as the redis protocol (`+OK` on `QUIT`), over
decoded `interface{}` requests. -/
def ifaceRunFrom (reg : List (Bytes × VHandler F J)) :
    List (GoVal F J) → RunSt → RunSt
  | [], st => { st with closed := true }
  | data :: rest, st =>
    match dispatchIface reg data with
    | .panicD => { st with events := st.events ++ [fatalEv], closed := true }
    | .quitD => { st with out := st.out ++ writeStringGo (strBytes "OK"), closed := true }
    | .missD =>
      ifaceRunFrom reg rest
        { st with events := st.events ++ [errEv cmdNotFoundMsg],
                  out := st.out ++ writeErrorGo (some cmdNotFoundMsg) }
    | .ran w none => ifaceRunFrom reg rest { st with out := st.out ++ w }
    | .ran w (some m) =>
      ifaceRunFrom reg rest
        { st with events := st.events ++ [errEv m],
                  out := st.out ++ w ++ writeErrorGo (some m) }

/-- the initial state of a fresh connection -/
def initRun : RunSt := ⟨[], [], false⟩

theorem writeStringGo_ok : writeStringGo (strBytes "OK") = strBytes "+OK\r\n" := rfl

/-- C2, counterexample.  Over the line protocol, a `QUIT` request makes
`LineProtocol.RunClient` return without writing anything: the connection
closes with no `+OK` reply, contradicting the claim for the line protocol. -/
theorem c2_counterexample :
    lineRunFrom [] [[strBytes "QUIT"]] initRun = ⟨[], [], true⟩ ∧
    ([] : Bytes) ≠ strBytes "+OK\r\n" := by
  exact ⟨rfl, by decide⟩

/-- C2, amended.  After a request whose command uppercases to `QUIT`: the
bulk/redis and typed/interface protocols append exactly the single reply
`+OK\r\n` to the connection's output, close the connection, and process no
further requests; the line protocol closes the connection without writing
any reply at all. -/
theorem c2_quit_amended (regB regL : List (Bytes × GHandler))
    (regI : List (Bytes × VHandler F J)) (c : Bytes)
    (hc : upperBytes c = strBytes "QUIT") (args : List Bytes)
    (argsV : List (GoVal F J)) (restB restL : List (List Bytes))
    (restI : List (GoVal F J)) (stB stL stI : RunSt) :
    redisRunFrom regB ((c :: args) :: restB) stB =
      { stB with out := stB.out ++ strBytes "+OK\r\n", closed := true } ∧
    ifaceRunFrom regI (GoVal.arr (GoVal.bytes c :: argsV) :: restI) stI =
      { stI with out := stI.out ++ strBytes "+OK\r\n", closed := true } ∧
    lineRunFrom regL ((c :: args) :: restL) stL = { stL with closed := true } := by
  refine ⟨?_, ?_, ?_⟩
  · rw [redisRunFrom]
    simp [dispatchBulk, hc, writeStringGo_ok]
  · rw [ifaceRunFrom]
    simp [dispatchIface, hc, writeStringGo_ok]
  · rw [lineRunFrom]
    simp [dispatchBulk, hc]

/-- C2, witness: the amended statement at `c = "quit"` on fresh connections
with empty registries. -/
theorem c2_quit_witness :
    redisRunFrom [] [[strBytes "quit"]] initRun =
      { initRun with out := initRun.out ++ strBytes "+OK\r\n", closed := true } ∧
    ifaceRunFrom ([] : List (Bytes × VHandler Unit Unit))
        [GoVal.arr [GoVal.bytes (strBytes "quit")]] initRun =
      { initRun with out := initRun.out ++ strBytes "+OK\r\n", closed := true } ∧
    lineRunFrom [] [[strBytes "quit"]] initRun = { initRun with closed := true } :=
  c2_quit_amended [] [] [] (strBytes "quit") (by decide) [] [] [] [] [] initRun initRun initRun

/-- C6: dispatching an unknown command over the interface protocol emits an
error event, writes exactly `-ERR invalid command format\r\n`, leaves the
connection open and continues with the next request on the same
connection. -/
theorem c6_unknown_command (reg : List (Bytes × VHandler F J)) (c : Bytes)
    (args : List (GoVal F J)) (rest : List (GoVal F J)) (st : RunSt)
    (hq : upperBytes c ≠ strBytes "QUIT")
    (hmiss : mapLookup reg (upperBytes c) = none) :
    ifaceRunFrom reg (GoVal.arr (GoVal.bytes c :: args) :: rest) st =
      ifaceRunFrom reg rest
        { st with events := st.events ++ [errEv cmdNotFoundMsg],
                  out := st.out ++ writeErrorGo (some cmdNotFoundMsg) } ∧
    writeErrorGo (some cmdNotFoundMsg) = strBytes "-ERR invalid command format\r\n" := by
  constructor
  · rw [ifaceRunFrom]
    simp [dispatchIface, hq, hmiss]
  · rfl

/-- C6, witness: an unregistered `FOO` on a fresh connection with an empty
registry replies `-ERR invalid command format\r\n` and the loop reaches the
next read (here: EOF, after which the connection closes). -/
theorem c6_unknown_command_witness :
    ifaceRunFrom ([] : List (Bytes × VHandler Unit Unit))
        [GoVal.arr [GoVal.bytes (strBytes "FOO")]] initRun =
      ifaceRunFrom ([] : List (Bytes × VHandler Unit Unit)) ([] : List (GoVal Unit Unit))
        { initRun with events := initRun.events ++ [errEv cmdNotFoundMsg],
                       out := initRun.out ++ writeErrorGo (some cmdNotFoundMsg) } ∧
    writeErrorGo (some cmdNotFoundMsg) = strBytes "-ERR invalid command format\r\n" :=
  c6_unknown_command [] (strBytes "FOO") [] [] initRun (by decide) rfl

/-- C7, counterexample.  `QUIT` is intercepted before the registry lookup, so
a handler registered under the name `quit` is never invoked: dispatching the
case-mixed permutation `Quit` yields the quit outcome, not the handler's. -/
theorem c7_counterexample :
    dispatchBulk (registerCmd [] (strBytes "quit")
        (fun _ => (strBytes "+HANDLED\r\n", none))) [strBytes "Quit"] = DOut.quitD ∧
    DOut.quitD ≠ DOut.ran (strBytes "+HANDLED\r\n") none := by
  exact ⟨rfl, fun h => DOut.noConfusion h⟩

/-- C7, amended.  For every registered command name `N` whose uppercasing is
not `QUIT`, and every case-mixed permutation `M` of `N` (same uppercasing),
dispatching `M` — over the bulk protocol or the interface protocol — invokes
exactly the handler registered under `N`. -/
theorem c7_case_insensitive_amended (reg : List (Bytes × GHandler))
    (regV : List (Bytes × VHandler F J)) (N M : Bytes) (h : GHandler)
    (hV : VHandler F J) (args : List Bytes) (argsV : List (GoVal F J))
    (hcase : upperBytes M = upperBytes N)
    (hnq : upperBytes N ≠ strBytes "QUIT") :
    dispatchBulk (registerCmd reg N h) (M :: args) = .ran (h args).1 (h args).2 ∧
    dispatchIface (registerCmdV regV N hV) (GoVal.arr (GoVal.bytes M :: argsV)) =
      .ran (hV argsV).1 (hV argsV).2 := by
  constructor
  · simp [dispatchBulk, registerCmd, hcase, hnq, mapLookup_mapSet]
  · simp [dispatchIface, registerCmdV, hcase, hnq, mapLookup_mapSet]

/-- C7, witness: `PING` registered as `ping`, dispatched as `PiNg`, on both
protocols. -/
theorem c7_case_insensitive_witness :
    dispatchBulk (registerCmd [] (strBytes "ping")
        (fun _ => (strBytes "+PONG\r\n", none))) [strBytes "PiNg"] =
      .ran (strBytes "+PONG\r\n") none ∧
    dispatchIface (registerCmdV ([] : List (Bytes × VHandler Unit Unit)) (strBytes "ping")
        (fun _ => (strBytes "+PONG\r\n", none))) (GoVal.arr [GoVal.bytes (strBytes "PiNg")]) =
      .ran (strBytes "+PONG\r\n") none :=
  c7_case_insensitive_amended [] [] (strBytes "ping") (strBytes "PiNg")
    (fun _ => (strBytes "+PONG\r\n", none)) (fun _ => (strBytes "+PONG\r\n", none))
    [] [] (by decide) (by decide)

/-! ## `NetworkClient.Close` (`part_007` lines 406-418 and 876-888)

```go
func (netClient NetworkClient) Close() {
    netClient.Lock()
    defer netClient.Unlock()
    if netClient.Conn == nil { return }
    netClient.Closed = true
    netClient.Conn.Close()
    netClient.Conn = nil
    close(netClient.Quit)
}
```

The receiver is a **value**, so `Lock`, the `Conn == nil` guard and the field
assignments all act on a copy of the struct: `Closed = true` and `Conn = nil`
are lost when the call returns, while `Conn.Close()` and `close(Quit)` hit
the shared connection and channel.  The model keeps the client's fields and
the shared side effects apart and replays exactly those assignments. -/

/-- The `NetworkClient` struct fields relevant to `Close` (the heap object
the pointer-receiver methods would see). -/
structure NCFields where
  Closed : Bool
  /-- whether `Conn` is non-nil -/
  ConnPresent : Bool
  deriving DecidableEq

/-- The world around one client: its struct fields plus the shared objects a
copy of the struct still reaches — the OS socket and the `Quit` channel. -/
structure NCWorld where
  client : NCFields
  /-- number of `Conn.Close()` system calls so far -/
  sockCloseCount : Nat
  /-- whether `close(Quit)` has run -/
  quitClosed : Bool
  /-- number of signals delivered on the `Quit` channel (closing a channel
  signals it exactly once) -/
  quitSignals : Nat
  /-- whether a `close` of an already-closed channel has panicked -/
  panicked : Bool
  deriving DecidableEq

/-- A freshly connected client (`NewNetworkClientSize`). -/
def ncInit : NCWorld := ⟨⟨false, true⟩, 0, false, 0, false⟩

/-- One call of `NetworkClient.Close` with its value receiver: the guard
reads the (copied) fields of the stored client; the two field assignments
mutate only the copy, so `w.client` is returned unchanged; `Conn.Close()`
and `close(Quit)` act on the shared socket and channel, and closing an
already-closed channel panics. -/
def ncClose (w : NCWorld) : NCWorld :=
  let copy := w.client                 -- the value receiver copies the struct
  if copy.ConnPresent = false then w   -- if netClient.Conn == nil { return }
  else
    -- netClient.Closed = true; netClient.Conn = nil  (both lost with the copy)
    let _copy := { copy with Closed := true, ConnPresent := false }
    -- netClient.Conn.Close()
    let w1 := { w with sockCloseCount := w.sockCloseCount + 1 }
    -- close(netClient.Quit)
    if w1.quitClosed then { w1 with panicked := true }
    else { w1 with quitClosed := true, quitSignals := w1.quitSignals + 1 }

/-- C3 (code bug): calling `Close` twice on a fresh connection.  Because the
receiver is a value, the nil-guard never observes the first call's
`Conn = nil`: the second call closes the socket again and re-closes the
`Quit` channel — a Go runtime panic — and even after the first call the
stored client is not marked closed (`IsClosed` still reports `false`).
The claim's `N`-fold idempotency fails at `N = 2`. -/
theorem c3_close_not_idempotent :
    (ncClose ncInit).quitSignals = 1 ∧
    (ncClose ncInit).client.Closed = false ∧
    (ncClose (ncClose ncInit)).sockCloseCount = 2 ∧
    (ncClose (ncClose ncInit)).panicked = true := by
  decide

/-! ## Pub/sub backend (`part_015`, `PubSubBackend`)

Topics map names to `TopicChannel`s holding a subscriber-count field and a
set of subscriber addresses (`map[string]struct{}`, modelled as a
duplicate-free list).  Handlers receive the `[][]byte` arguments and the
calling client; `publish` writes to subscribers found in the server's
connection registry. -/

/-- `TopicChannel` (`part_015` lines 18-23): the stored subscriber count and
the subscriber-address set. -/
structure TopicChannel where
  size : Int
  clients : List Bytes
  deriving DecidableEq

/-- The pub/sub backend's state: its topic map. -/
structure PubSubState where
  topics : List (Bytes × TopicChannel)
  deriving DecidableEq

/-- Modelled from the spec: `BroadcastServer.GetClient`, called by `publish`,
is not among the provided sources (only this call site is).  Per the spec
(§4.7, §3 ownership), it looks the subscriber address up in the server's
registry of live connections, failing for disconnected clients.  The
registry is modelled as the list of live addresses. -/
def getClientOk (registry : List Bytes) (addr : Bytes) : Bool :=
  decide (addr ∈ registry)

/-- `PubSubBackend.subscribe` (`part_015` lines 26-52): no-op on an empty
topic list; otherwise, for each topic, insert the caller's address into the
topic's set if absent (incrementing `size`), creating the topic with
`size = 1` when missing.  The handler writes nothing and returns nil on
every path. -/
def psSubscribe (st : PubSubState) (caller : Bytes) (d : List Bytes) :
    PubSubState × Option Bytes :=
  if d.length < 1 then (st, none)
  else
    (⟨d.foldl (fun topics k =>
      match mapLookup topics k with
      | some topic =>
        if caller ∈ topic.clients then topics
        else mapSet topics k ⟨topic.size + 1, caller :: topic.clients⟩
      | none => mapSet topics k ⟨1, [caller]⟩) st.topics⟩, none)

/-- `PubSubBackend.unsubscribe` (`part_015` lines 54-74): no-op on an empty
topic list; otherwise remove the caller from each listed topic's set when
present (decrementing `size`); missing topics and non-subscribers are
no-ops.  Writes nothing, returns nil on every path. -/
def psUnsubscribe (st : PubSubState) (caller : Bytes) (d : List Bytes) :
    PubSubState × Option Bytes :=
  if d.length < 1 then (st, none)
  else
    (⟨d.foldl (fun topics k =>
      match mapLookup topics k with
      | some topic =>
        if caller ∈ topic.clients then
          mapSet topics k ⟨topic.size - 1, topic.clients.erase caller⟩
        else topics
      | none => topics) st.topics⟩, none)

/-- `PubSubBackend.publish` (`part_015` lines 77-110): no-op unless given a
topic and at least one message part; for an existing topic with positive
`size`, write the message parts as a bulk array to every subscriber found in
the connection registry and delete the others from the set — without
decrementing `size`.  Returns nil on every path.  Result:
`(new state, (address, bytes) writes, returned error)`. -/
def psPublish (st : PubSubState) (registry : List Bytes) (_client : Bytes)
    (d : List Bytes) : PubSubState × List (Bytes × Bytes) × Option Bytes :=
  if d.length < 2 then (st, [], none)
  else
    match d with
    | [] => (st, [], none)               -- unreachable: length ≥ 2
    | key :: message =>
      match mapLookup st.topics key with
      | none => (st, [], none)
      | some topic =>
        if topic.size > 0 then
          let live := topic.clients.filter (getClientOk registry)
          -- hits get `sClient.WriteBulk(message); sClient.Flush()`;
          -- misses are collected in `deletions` and removed below
          (⟨mapSet st.topics key ⟨topic.size, live⟩⟩,
            live.map (fun c => (c, writeBulkGo message)), none)
        else (st, [], none)

/-- The pub/sub states reachable from the fresh backend (`RegisterBackend`
starts with an empty topic map) by the three handlers. -/
inductive PSReach : PubSubState → Prop
  | init : PSReach ⟨[]⟩
  | sub (st : PubSubState) (caller : Bytes) (d : List Bytes) :
      PSReach st → PSReach (psSubscribe st caller d).1
  | unsub (st : PubSubState) (caller : Bytes) (d : List Bytes) :
      PSReach st → PSReach (psUnsubscribe st caller d).1
  | pub (st : PubSubState) (registry : List Bytes) (client : Bytes) (d : List Bytes) :
      PSReach st → PSReach (psPublish st registry client d).1

/-- The topic-map invariant the handlers maintain: every topic's subscriber
set is duplicate-free and no larger than its `size` field.  (Equality fails:
see the C5 theorem.) -/
def TopicsInv (topics : List (Bytes × TopicChannel)) : Prop :=
  ∀ t ch, mapLookup topics t = some ch →
    ch.clients.Nodup ∧ (ch.clients.length : Int) ≤ ch.size

theorem mapLookup_mapSet_ite {α β : Type} [DecidableEq α]
    (m : List (α × β)) (k a : α) (v : β) :
    mapLookup (mapSet m k v) a = if a = k then some v else mapLookup m a := by
  simp [mapSet, mapLookup]

theorem topicsInv_mapSet (topics : List (Bytes × TopicChannel)) (k : Bytes)
    (v : TopicChannel) (hinv : TopicsInv topics) (hn : v.clients.Nodup)
    (hs : (v.clients.length : Int) ≤ v.size) : TopicsInv (mapSet topics k v) := by
  intro t ch hch
  rw [mapLookup_mapSet_ite] at hch
  by_cases ht : t = k
  · rw [if_pos ht] at hch
    cases hch
    exact ⟨hn, hs⟩
  · rw [if_neg ht] at hch
    exact hinv t ch hch

theorem topicsInv_subscribe_step (caller : Bytes) (topics : List (Bytes × TopicChannel))
    (k : Bytes) (hinv : TopicsInv topics) :
    TopicsInv (match mapLookup topics k with
      | some topic =>
        if caller ∈ topic.clients then topics
        else mapSet topics k ⟨topic.size + 1, caller :: topic.clients⟩
      | none => mapSet topics k ⟨1, [caller]⟩) := by
  cases hlk : mapLookup topics k with
  | none =>
    exact topicsInv_mapSet topics k _ hinv (List.nodup_singleton caller) (by simp)
  | some topic =>
    by_cases hmem : caller ∈ topic.clients
    · simpa [hmem] using hinv
    · have hch := hinv k topic hlk
      simp only [hmem, if_false]
      refine topicsInv_mapSet topics k _ hinv (List.Nodup.cons hmem hch.1) ?_
      have := hch.2
      simp only [List.length_cons]
      push_cast
      omega

theorem topicsInv_unsubscribe_step (caller : Bytes) (topics : List (Bytes × TopicChannel))
    (k : Bytes) (hinv : TopicsInv topics) :
    TopicsInv (match mapLookup topics k with
      | some topic =>
        if caller ∈ topic.clients then
          mapSet topics k ⟨topic.size - 1, topic.clients.erase caller⟩
        else topics
      | none => topics) := by
  cases hlk : mapLookup topics k with
  | none => exact hinv
  | some topic =>
    by_cases hmem : caller ∈ topic.clients
    · have hch := hinv k topic hlk
      simp only [hmem, if_true]
      refine topicsInv_mapSet topics k _ hinv (hch.1.erase caller) ?_
      have hlen : (topic.clients.erase caller).length = topic.clients.length - 1 :=
        List.length_erase_of_mem hmem
      have hpos : 1 ≤ topic.clients.length := List.length_pos.mpr (List.ne_nil_of_mem hmem)
      have := hch.2
      rw [hlen]
      push_cast [hpos]
      omega
    · simpa [hmem] using hinv

theorem topicsInv_foldl {f : List (Bytes × TopicChannel) → Bytes → List (Bytes × TopicChannel)}
    (hf : ∀ topics k, TopicsInv topics → TopicsInv (f topics k)) :
    ∀ (d : List Bytes) (topics : List (Bytes × TopicChannel)),
      TopicsInv topics → TopicsInv (d.foldl f topics)
  | [], _, h => h
  | _ :: d, topics, h => topicsInv_foldl hf d _ (hf topics _ h)

/-- Every reachable pub/sub state satisfies the topic invariant. -/
theorem psReach_inv (st : PubSubState) (hre : PSReach st) : TopicsInv st.topics := by
  induction hre with
  | init => intro t ch hch; cases hch
  | sub st caller d _ ih =>
    rw [psSubscribe]
    by_cases hd : d.length < 1
    · simpa [hd] using ih
    · simp only [hd, if_false]
      exact topicsInv_foldl (topicsInv_subscribe_step caller) d st.topics ih
  | unsub st caller d _ ih =>
    rw [psUnsubscribe]
    by_cases hd : d.length < 1
    · simpa [hd] using ih
    · simp only [hd, if_false]
      exact topicsInv_foldl (topicsInv_unsubscribe_step caller) d st.topics ih
  | pub st registry client d _ ih =>
    rw [psPublish.eq_def]
    by_cases hd : d.length < 2
    · simpa [hd] using ih
    · simp only [hd, if_false]
      match d with
      | [] => exact ih
      | key :: message =>
        cases hlk : mapLookup st.topics key with
        | none => simpa [hlk] using ih
        | some topic =>
          by_cases hsz : topic.size > 0
          · simp only [hlk, hsz, if_true]
            have hch := ih key topic hlk
            refine topicsInv_mapSet st.topics key _ ih (hch.1.filter _) ?_
            have hle : (topic.clients.filter (getClientOk registry)).length ≤
                topic.clients.length := List.length_filter_le _ _
            have := hch.2
            simp only []
            push_cast
            omega
          · simpa [hlk, hsz] using ih

theorem length_filter_add_not (p : Bytes → Bool) (l : List Bytes) :
    (l.filter p).length + (l.filter (fun c => ! p c)).length = l.length := by
  induction l with
  | nil => rfl
  | cons a l ih =>
    by_cases h : p a <;> simp [List.filter_cons, h] <;> omega

/-- C4: publishing to an existing topic of a reachable state whose `S`
subscriber addresses include `F` disconnected ones returns no error, writes
the message parts as one bulk array to exactly the `S − F` live subscribers,
and removes the stale addresses, so the topic's set next shows `S − F`
entries. -/
theorem c4_publish_best_effort (st : PubSubState) (registry : List Bytes)
    (client t : Bytes) (msg : List Bytes) (ch : TopicChannel)
    (hre : PSReach st) (hch : mapLookup st.topics t = some ch) (hmsg : msg ≠ []) :
    (psPublish st registry client (t :: msg)).2.2 = none ∧
    (psPublish st registry client (t :: msg)).2.1 =
      (ch.clients.filter (getClientOk registry)).map (fun c => (c, writeBulkGo msg)) ∧
    mapLookup (psPublish st registry client (t :: msg)).1.topics t =
      some ⟨ch.size, ch.clients.filter (getClientOk registry)⟩ ∧
    (ch.clients.filter (getClientOk registry)).length =
      ch.clients.length -
        (ch.clients.filter (fun c => ! getClientOk registry c)).length := by
  have hlen2 : ¬ (t :: msg).length < 2 := by
    have : 1 ≤ msg.length := List.length_pos.mpr hmsg
    simp only [List.length_cons]
    omega
  have hm1 : ¬ (msg.length + 1 < 2) := by
    have := List.length_pos.mpr hmsg
    omega
  have hpart := length_filter_add_not (getClientOk registry) ch.clients
  by_cases hsz : ch.size > 0
  · refine ⟨?_, ?_, ?_, by omega⟩ <;>
      · rw [psPublish.eq_def]
        simp [hlen2, hm1, hch, hsz, mapLookup_mapSet]
  · -- size ≤ 0: by the reachability invariant the set is empty, so the
    -- publish is a no-op and every quantity is zero
    have hinv := (psReach_inv st hre) t ch hch
    obtain ⟨sz, cls⟩ := ch
    have hnil : cls = [] := by
      have := hinv.2
      cases hc : cls with
      | nil => rfl
      | cons a l =>
        rw [hc] at this
        simp only [List.length_cons] at this
        push_cast at this
        simp only [gt_iff_lt, not_lt] at hsz
        omega
    subst hnil
    refine ⟨?_, ?_, ?_, by simp⟩ <;>
      · rw [psPublish.eq_def]
        simp [hlen2, hm1, hch, hsz]

/-- a reachable demonstration state: `A` and `B` subscribed to `news` -/
def psDemoState : PubSubState :=
  (psSubscribe (psSubscribe ⟨[]⟩ (strBytes "A") [strBytes "news"]).1
    (strBytes "B") [strBytes "news"]).1

/-- C4, witness: publishing `hi` to `news` with only `A` still connected
delivers to `A` alone, errors nowhere, and trims the topic to one entry. -/
theorem c4_publish_witness :
    (psPublish psDemoState [strBytes "A"] (strBytes "P")
        [strBytes "news", strBytes "hi"]).2.2 = none ∧
    (psPublish psDemoState [strBytes "A"] (strBytes "P")
        [strBytes "news", strBytes "hi"]).2.1 =
      ((⟨2, [strBytes "B", strBytes "A"]⟩ : TopicChannel).clients.filter
        (getClientOk [strBytes "A"])).map (fun c => (c, writeBulkGo [strBytes "hi"])) ∧
    mapLookup (psPublish psDemoState [strBytes "A"] (strBytes "P")
        [strBytes "news", strBytes "hi"]).1.topics (strBytes "news") =
      some ⟨(⟨2, [strBytes "B", strBytes "A"]⟩ : TopicChannel).size,
        (⟨2, [strBytes "B", strBytes "A"]⟩ : TopicChannel).clients.filter
          (getClientOk [strBytes "A"])⟩ ∧
    ((⟨2, [strBytes "B", strBytes "A"]⟩ : TopicChannel).clients.filter
        (getClientOk [strBytes "A"])).length =
      (⟨2, [strBytes "B", strBytes "A"]⟩ : TopicChannel).clients.length -
        ((⟨2, [strBytes "B", strBytes "A"]⟩ : TopicChannel).clients.filter
          (fun c => ! getClientOk [strBytes "A"] c)).length :=
  c4_publish_best_effort psDemoState [strBytes "A"] (strBytes "P") (strBytes "news")
    [strBytes "hi"] ⟨2, [strBytes "B", strBytes "A"]⟩
    (PSReach.sub _ _ _ (PSReach.sub _ _ _ PSReach.init)) rfl (by decide)

/-- C5 (code bug): after `A` subscribes to `news` and then disconnects, a
publish removes the stale address from the topic's set but leaves
`size = 1`, so the stored count no longer equals the set's cardinality. -/
theorem c5_size_mismatch :
    mapLookup (psPublish (psSubscribe ⟨[]⟩ (strBytes "A") [strBytes "news"]).1
        [] (strBytes "P") [strBytes "news", strBytes "m"]).1.topics (strBytes "news") =
      some ⟨1, []⟩ ∧
    ¬ ((1 : Int) = (([] : List Bytes).length : Int)) :=
  ⟨rfl, by decide⟩

/-- C10: the pub/sub handlers are silent no-ops on short argument lists —
subscribe and unsubscribe with zero topics, publish with fewer than two
arguments, each return nil, perform no writes, and leave the topic map
unchanged. -/
theorem c10_short_args_noop (st : PubSubState) (caller : Bytes)
    (registry : List Bytes) :
    (∀ d : List Bytes, d.length < 1 → psSubscribe st caller d = (st, none)) ∧
    (∀ d : List Bytes, d.length < 1 → psUnsubscribe st caller d = (st, none)) ∧
    (∀ d : List Bytes, d.length < 2 →
      psPublish st registry caller d = (st, [], none)) := by
  refine ⟨fun d h => ?_, fun d h => ?_, fun d h => ?_⟩
  · simp [psSubscribe, h]
  · simp [psUnsubscribe, h]
  · rw [psPublish.eq_def]
    simp [h]

/-- C10, witness: the no-ops on a fresh backend — `SUBSCRIBE` and
`UNSUBSCRIBE` with no topics, `PUBLISH` with a topic but no message. -/
theorem c10_short_args_witness :
    psSubscribe ⟨[]⟩ (strBytes "A") [] = (⟨[]⟩, none) ∧
    psUnsubscribe ⟨[]⟩ (strBytes "A") [] = (⟨[]⟩, none) ∧
    psPublish ⟨[]⟩ [] (strBytes "A") [strBytes "news"] = (⟨[]⟩, [], none) :=
  ⟨(c10_short_args_noop ⟨[]⟩ (strBytes "A") []).1 [] (by decide),
   (c10_short_args_noop ⟨[]⟩ (strBytes "A") []).2.1 [] (by decide),
   (c10_short_args_noop ⟨[]⟩ (strBytes "A") []).2.2 [strBytes "news"] (by decide)⟩

/-! ## Stats `MemoryBackend` (`backends/stats/memorybackend.go`)

The integer-value map (`values map[string]int64`) with `Get`, `Set`,
`SetNx`, `DecrBy` and `Decr`.  Go `int64` arithmetic wraps, made explicit
with `wrap64`. -/

/-- Two's-complement wrap of an integer into `int64` range. -/
def wrap64 (x : Int) : Int := (x + 2 ^ 63) % 2 ^ 64 - 2 ^ 63

/-- The backend state the claims touch: the `values` map. -/
structure MemoryBackend where
  values : List (String × Int)
  deriving DecidableEq

/-- `MemoryBackend.Get` (lines 373-382): the stored value, or
`(0, ErrNotFound)` for a missing key. -/
def mbGet (mem : MemoryBackend) (name : String) : Int × Option String :=
  match mapLookup mem.values name with
  | some v => (v, none)
  | none => (0, some "key not found")          -- ErrNotFound

/-- `MemoryBackend.Set` (lines 384-389): store and return 1. -/
def mbSet (mem : MemoryBackend) (name : String) (value : Int) : Int × MemoryBackend :=
  (1, ⟨mapSet mem.values name value⟩)

/-- `MemoryBackend.SetNx` (lines 391-400): store and return 1 when the key
is absent; return -1 and change nothing when it is present. -/
def mbSetNx (mem : MemoryBackend) (name : String) (value : Int) : Int × MemoryBackend :=
  match mapLookup mem.values name with
  | none => (1, ⟨mapSet mem.values name value⟩)
  | some _ => (-1, mem)

/-- `MemoryBackend.DecrBy` (lines 331-342): with the key present, store and
return `v - count`; with it absent, store `-1 * count` but return `count`
(the source returns the parameter, not the stored value). -/
def mbDecrBy (mem : MemoryBackend) (name : String) (count : Int) : Int × MemoryBackend :=
  match mapLookup mem.values name with
  | some v => (wrap64 (v - count), ⟨mapSet mem.values name (wrap64 (v - count))⟩)
  | none => (count, ⟨mapSet mem.values name (wrap64 (-1 * count))⟩)

/-- `MemoryBackend.Decr` (lines 327-330): `DecrBy(name, 1)`. -/
def mbDecr (mem : MemoryBackend) (name : String) : Int × MemoryBackend :=
  mbDecrBy mem name 1

/-- C8: `SetNx(k,v)` returns 1 iff `k` is absent — then stores `v` so `Get k`
returns it with no error; on a present key it returns -1 and leaves the
stored value unchanged; and `Get` on a missing key returns the not-found
error (not a bare zero). -/
theorem c8_setnx_law (mem : MemoryBackend) (k : String) (v : Int) :
    ((mbSetNx mem k v).1 = 1 ↔ mapLookup mem.values k = none) ∧
    (mapLookup mem.values k = none →
      (mbSetNx mem k v).1 = 1 ∧ mbGet (mbSetNx mem k v).2 k = (v, none)) ∧
    (∀ w, mapLookup mem.values k = some w →
      (mbSetNx mem k v).1 = -1 ∧ mapLookup (mbSetNx mem k v).2.values k = some w) ∧
    (mapLookup mem.values k = none → mbGet mem k = (0, some "key not found")) := by
  cases hlk : mapLookup mem.values k with
  | none =>
    refine ⟨by simp [mbSetNx, hlk], fun _ => ⟨by simp [mbSetNx, hlk], ?_⟩,
      fun w hw => Option.noConfusion hw, fun _ => by simp [mbGet, hlk]⟩
    simp [mbSetNx, hlk, mbGet, mapLookup_mapSet]
  | some w0 =>
    refine ⟨by simp [mbSetNx, hlk], fun h => Option.noConfusion h,
      fun w hw => ?_, fun h => Option.noConfusion h⟩
    have hww : w0 = w := by injection hw
    subst hww
    exact ⟨by simp [mbSetNx, hlk], by simp [mbSetNx, hlk]⟩

/-- C8, witness: on a fresh backend, `SetNx foo 9` inserts and returns 1,
`Get foo` then yields 9; a second `SetNx foo 7` returns -1 leaving 9 in
place; `Get bar` signals the not-found error. -/
theorem c8_setnx_witness :
    (mbSetNx ⟨[]⟩ "foo" 9).1 = 1 ∧
    mbGet (mbSetNx ⟨[]⟩ "foo" 9).2 "foo" = (9, none) ∧
    (mbSetNx (mbSetNx ⟨[]⟩ "foo" 9).2 "foo" 7).1 = -1 ∧
    mapLookup (mbSetNx (mbSetNx ⟨[]⟩ "foo" 9).2 "foo" 7).2.values "foo" = some 9 ∧
    mbGet ⟨[]⟩ "bar" = (0, some "key not found") := by
  refine ⟨((c8_setnx_law ⟨[]⟩ "foo" 9).2.1 rfl).1, ((c8_setnx_law ⟨[]⟩ "foo" 9).2.1 rfl).2,
    ((c8_setnx_law (mbSetNx ⟨[]⟩ "foo" 9).2 "foo" 7).2.2.1 9 rfl).1,
    ((c8_setnx_law (mbSetNx ⟨[]⟩ "foo" 9).2 "foo" 7).2.2.1 9 rfl).2,
    (c8_setnx_law ⟨[]⟩ "bar" 0).2.2.2 rfl⟩

/-- C9 (code bug): `Decr` on an absent key stores `-1` but returns `1` —
the absent-key branch of `DecrBy` returns the `count` parameter instead of
the value it just stored, unlike every other branch (`IncrBy`, and `DecrBy`
on a present key, both return the stored value). -/
theorem c9_decr_absent_mismatch :
    (mbDecr ⟨[]⟩ "x").1 = 1 ∧
    mapLookup (mbDecr ⟨[]⟩ "x").2.values "x" = some (-1) ∧
    ((1 : Int) ≠ -1) := by
  refine ⟨rfl, by decide, by decide⟩
